import Mathlib

/-!
Verification of the measurement reconciliation and completeness engine of the
medical monitoring repository.  The Lean definitions below are shallow
embeddings of the Python source: time-slot classification
(`improved_file_validator.py`, `improved_pressure_analyzer.py`,
`file_validator.py`), AM/PM ambiguity resolution
(`content_based_ampm_resolver.py`), canonical source selection, the
dashboard's consecutive-day computation (`dashboard.py`), the monitoring
system's completeness aggregation (`monitoring_system.py`) and the
measurement extractor (`improved_file_validator.py`).
-/

/- ## Time-slot classification -/

/-- `FileValidator.classify_time_slot` of `improved_file_validator.py`
(lines 287-300) and `ImprovedPressureAnalyzer.classify_time_slot` of
`improved_pressure_analyzer.py` (lines 310-323): both bodies are identical and
read only `measurement_time.hour`, which is the argument here.
Matutina 04-12, vespertina 13-23 or 00-03, otherwise fuera_de_horario. -/
def classifyTimeSlot (measurementHour : Nat) : String :=
  if 4 ≤ measurementHour ∧ measurementHour ≤ 12 then "matutina"
  else if (13 ≤ measurementHour ∧ measurementHour ≤ 23) ∨ measurementHour ≤ 3 then
    "vespertina"
  else "fuera_de_horario"

/-- A Python `datetime.time` value (microseconds are never used by the
sources modelled here). Comparison is lexicographic, as in Python. -/
structure TimeOfDay where
  hour : Nat
  minute : Nat
  second : Nat
deriving DecidableEq

/-- Python `time <= time` comparison: lexicographic on (hour, minute, second). -/
def todLE (a b : TimeOfDay) : Bool :=
  a.hour < b.hour ∨
    (a.hour = b.hour ∧ (a.minute < b.minute ∨
      (a.minute = b.minute ∧ a.second ≤ b.second)))

/-- `self.time_slots` of `file_validator.py` `FileValidator.__init__`
(lines 16-21): four sub-slots, in dict insertion order. -/
def fvTimeSlots : List (String × TimeOfDay × TimeOfDay) :=
  [("matutina_1", ⟨6, 0, 0⟩, ⟨9, 0, 0⟩),
   ("matutina_2", ⟨9, 1, 0⟩, ⟨12, 0, 0⟩),
   ("vespertina_1", ⟨13, 0, 0⟩, ⟨17, 0, 0⟩),
   ("vespertina_2", ⟨17, 1, 0⟩, ⟨21, 0, 0⟩)]

/-- The loop body of `FileValidator.classify_time_slot` in `file_validator.py`
(lines 304-312): return the first slot with `start <= t <= end`. -/
def findSlot (t : TimeOfDay) : List (String × TimeOfDay × TimeOfDay) → Option String
  | [] => none
  | (name, s, e) :: rest =>
      if todLE s t ∧ todLE t e then some name else findSlot t rest

/-- `FileValidator.classify_time_slot` of `file_validator.py` (lines 304-312). -/
def classifyTimeSlotFV (t : TimeOfDay) : String :=
  (findSlot t fvTimeSlots).getD "fuera_de_horario"

/-- C3 counterexample: the interval-based classifier of `file_validator.py`
maps 03:00 to `fuera_de_horario`, not to the evening slot, so the claim that
the classifier never produces the out-of-slot value (and that hour 3 is
classified as Evening) is false for that cited implementation. -/
theorem classifyTimeSlotFV_hour3_out_of_slot :
    classifyTimeSlotFV ⟨3, 0, 0⟩ = "fuera_de_horario" ∧
      classifyTimeSlotFV ⟨3, 0, 0⟩ ≠ "vespertina" := by
  constructor
  · rfl
  · decide

/-- C3 (amended): the hour-based classifier shared by
`improved_file_validator.py` and `improved_pressure_analyzer.py` is total on
hours 0-23 and never yields `fuera_de_horario`: hours 4-12 are matutina and
hours 13-23 and 0-3 are vespertina; in particular 3 is vespertina, 4 and 12
matutina, 13 vespertina. -/
theorem classifyTimeSlot_total (h : Nat) (hh : h ≤ 23) :
    (classifyTimeSlot h = "matutina" ∨ classifyTimeSlot h = "vespertina") ∧
      (classifyTimeSlot h = "matutina" ↔ 4 ≤ h ∧ h ≤ 12) ∧
      (classifyTimeSlot h = "vespertina" ↔ (13 ≤ h ∧ h ≤ 23) ∨ h ≤ 3) ∧
      classifyTimeSlot h ≠ "fuera_de_horario" := by
  unfold classifyTimeSlot
  split_ifs with h1 h2
  · refine ⟨Or.inl rfl, ⟨fun _ => h1, fun _ => rfl⟩, ⟨fun hc => ?_, fun hc => ?_⟩, by decide⟩
    · exact absurd hc (by decide)
    · omega
  · refine ⟨Or.inr rfl, ⟨fun hc => absurd hc (by decide), fun hc => ?_⟩,
      ⟨fun _ => h2, fun _ => rfl⟩, by decide⟩
    · omega
  · omega

/-- C3 witness: concrete boundary hour 3 classified by the total classifier. -/
theorem classifyTimeSlot_total_witness :
    (classifyTimeSlot 3 = "matutina" ∨ classifyTimeSlot 3 = "vespertina") ∧
      (classifyTimeSlot 3 = "matutina" ↔ 4 ≤ 3 ∧ 3 ≤ 12) ∧
      (classifyTimeSlot 3 = "vespertina" ↔ (13 ≤ 3 ∧ 3 ≤ 23) ∨ 3 ≤ 3) ∧
      classifyTimeSlot 3 ≠ "fuera_de_horario" :=
  classifyTimeSlot_total 3 (by decide)

/- ## Timestamp ambiguity resolution (`content_based_ampm_resolver.py`) -/

/-- A Python `datetime`, modelled with an absolute calendar-day number plus
time of day (microseconds unused by the resolver sources). -/
structure PyDateTime where
  day : Int
  hour : Nat
  minute : Nat
  second : Nat
deriving DecidableEq

/-- Seconds since the day-0 epoch; `a - b` on Python datetimes gives a
timedelta whose `total_seconds()` is `a.toSeconds - b.toSeconds`. -/
def PyDateTime.toSeconds (t : PyDateTime) : Int :=
  ((t.day * 24 + (t.hour : Int)) * 60 + (t.minute : Int)) * 60 + (t.second : Int)

/-- `abs((a - b).total_seconds() / 60)`: absolute difference in minutes. -/
def diffMinutes (a b : PyDateTime) : ℚ :=
  |(((a.toSeconds - b.toSeconds : Int) : ℚ) / 60)|

/-- A float that may be `float('inf')` (`none` stands for infinity). -/
def QInf : Type := Option ℚ

/-- `a <= b` with `none` as positive infinity. -/
def qleInf : Option ℚ → Option ℚ → Bool
  | none, none => true
  | none, some _ => false
  | some _, none => true
  | some a, some b => a ≤ b

/-- `a < b` with `none` as positive infinity. -/
def qltInf : Option ℚ → Option ℚ → Bool
  | none, _ => false
  | some _, none => true
  | some a, some b => a < b

/-- The loop of `resolve_ecg_ambiguity` (lines 246-255): track the minimum
difference of each candidate against every pressure timestamp, starting from
`float('inf')`. -/
def minDiffsAux (am pm : PyDateTime) :
    List PyDateTime → Option ℚ → Option ℚ → Option ℚ × Option ℚ
  | [], mA, mP => (mA, mP)
  | p :: rest, mA, mP =>
      let dA : Option ℚ := some (diffMinutes p am)
      let dP : Option ℚ := some (diffMinutes p pm)
      minDiffsAux am pm rest
        (if qltInf dA mA then dA else mA)
        (if qltInf dP mP then dP else mP)

/-- `ContentBasedAMPMResolver._resolve_with_heuristics` (lines 271-298):
every branch returns the datetime unchanged. -/
def resolveWithHeuristics (dt : PyDateTime) : PyDateTime :=
  if 1 ≤ dt.hour ∧ dt.hour ≤ 5 then dt
  else if 6 ≤ dt.hour ∧ dt.hour ≤ 11 then dt
  else if dt.hour = 12 then dt
  else dt

/-- `ContentBasedAMPMResolver.resolve_ecg_ambiguity` (lines 213-269).  The
caller-side cache lookup (`get_patient_pressure_times`) is modelled by the
explicit `pressureTimes` argument; an empty list is the
`if not pressure_times` branch. -/
def resolveEcgAmbiguity (ecg : PyDateTime) (pressureTimes : List PyDateTime) :
    PyDateTime :=
  if ¬ (1 ≤ ecg.hour ∧ ecg.hour ≤ 12) then ecg
  else
    match pressureTimes with
    | [] => resolveWithHeuristics ecg
    | ps =>
        let am := ecg
        let pm := if ecg.hour < 12 then { ecg with hour := ecg.hour + 12 } else ecg
        let m := minDiffsAux am pm ps none none
        if qleInf m.1 (some 120) ∧ qltInf m.1 m.2 then am
        else if qleInf m.2 (some 120) ∧ qltInf m.2 m.1 then pm
        else resolveWithHeuristics ecg

/-- The resolution algorithm as the claim words it: a tight threshold of
2 minutes when the corroboration comes from the same capture session, a loose
one of 120 minutes otherwise; candidate within threshold and strictly closer
wins, otherwise the fallback heuristic decides.  This definition follows the
claim's words, for comparison with `resolveEcgAmbiguity`, which follows the
source. -/
def claimedResolve (sameSession : Bool) (ecg : PyDateTime)
    (corroboration : List PyDateTime) : PyDateTime :=
  if ¬ (1 ≤ ecg.hour ∧ ecg.hour ≤ 12) then ecg
  else
    match corroboration with
    | [] => resolveWithHeuristics ecg
    | ps =>
        let threshold : ℚ := if sameSession then 2 else 120
        let am := ecg
        let pm := if ecg.hour < 12 then { ecg with hour := ecg.hour + 12 } else ecg
        let m := minDiffsAux am pm ps none none
        if qleInf m.1 (some threshold) ∧ qltInf m.1 m.2 then am
        else if qleInf m.2 (some threshold) ∧ qltInf m.2 m.1 then pm
        else resolveWithHeuristics ecg

/-- C4 counterexample: for an ambiguous ECG at 02:00 whose same-session
corroborating pressure reading is at 14:30 the same day, the source resolver
accepts the PM candidate under its sole 120-minute threshold (returning
14:00), while the claimed tight 2-minute same-session threshold would reject
both candidates and fall back to the AM heuristic (returning 02:00).  The
cited resolver therefore does not use a context-dependent tight threshold. -/
theorem resolveEcgAmbiguity_no_tight_threshold :
    resolveEcgAmbiguity ⟨0, 2, 0, 0⟩ [⟨0, 14, 30, 0⟩] = ⟨0, 14, 0, 0⟩ ∧
      claimedResolve true ⟨0, 2, 0, 0⟩ [⟨0, 14, 30, 0⟩] = ⟨0, 2, 0, 0⟩ ∧
      resolveEcgAmbiguity ⟨0, 2, 0, 0⟩ [⟨0, 14, 30, 0⟩] ≠
        claimedResolve true ⟨0, 2, 0, 0⟩ [⟨0, 14, 30, 0⟩] := by
  have e1 : resolveEcgAmbiguity ⟨0, 2, 0, 0⟩ [⟨0, 14, 30, 0⟩] = ⟨0, 14, 0, 0⟩ := by
    unfold resolveEcgAmbiguity
    norm_num [minDiffsAux, diffMinutes, PyDateTime.toSeconds, qleInf, qltInf,
      resolveWithHeuristics]
  have e2 : claimedResolve true ⟨0, 2, 0, 0⟩ [⟨0, 14, 30, 0⟩] = ⟨0, 2, 0, 0⟩ := by
    unfold claimedResolve
    norm_num [minDiffsAux, diffMinutes, PyDateTime.toSeconds, qleInf, qltInf,
      resolveWithHeuristics]
  exact ⟨e1, e2, by rw [e1, e2]; decide⟩


/-- One update step of the minimum-tracking loop, in closed form. -/
def updMin (m : Option ℚ) (d : ℚ) : Option ℚ :=
  match m with
  | none => some d
  | some a => some (min d a)

theorem qltInf_update (m : Option ℚ) (d : ℚ) :
    (if qltInf (some d) m then some d else m) = updMin m d := by
  cases m with
  | none => simp [qltInf, updMin]
  | some a =>
      by_cases h : d < a
      · simp [qltInf, updMin, h, min_eq_left h.le]
      · simp [qltInf, updMin, h, min_eq_right (le_of_not_lt h)]

theorem minDiffsAux_foldl (am pm : PyDateTime) (ps : List PyDateTime) :
    ∀ mA mP : Option ℚ,
      minDiffsAux am pm ps mA mP =
        (ps.foldl (fun m p => updMin m (diffMinutes p am)) mA,
         ps.foldl (fun m p => updMin m (diffMinutes p pm)) mP) := by
  induction ps with
  | nil => intro mA mP; rfl
  | cons p rest ih =>
      intro mA mP
      simp only [minDiffsAux, List.foldl_cons, qltInf_update]
      exact ih _ _

/-- `q` is the minimum absolute difference (in minutes) between candidate `c`
and the corroborating timestamps `ps`. -/
def IsMinDiff (c : PyDateTime) (ps : List PyDateTime) (q : ℚ) : Prop :=
  (∃ p ∈ ps, diffMinutes p c = q) ∧ ∀ p ∈ ps, q ≤ diffMinutes p c

theorem foldl_updMin_some (c : PyDateTime) (ps : List PyDateTime) :
    ∀ a : ℚ, ∃ q : ℚ,
      ps.foldl (fun m p => updMin m (diffMinutes p c)) (some a) = some q ∧
        (q = a ∨ ∃ p ∈ ps, diffMinutes p c = q) ∧ q ≤ a ∧
        ∀ p ∈ ps, q ≤ diffMinutes p c := by
  induction ps with
  | nil => intro a; exact ⟨a, rfl, Or.inl rfl, le_refl a, by simp⟩
  | cons p rest ih =>
      intro a
      obtain ⟨q, hfold, hq, hle, hall⟩ := ih (min (diffMinutes p c) a)
      refine ⟨q, ?_, ?_, ?_, ?_⟩
      · simpa [updMin] using hfold
      · rcases hq with hq | ⟨p', hp', hq⟩
        · rcases min_cases (diffMinutes p c) a with ⟨hm, _⟩ | ⟨hm, _⟩
          · exact Or.inr ⟨p, List.mem_cons_self p rest, by rw [hq, hm]⟩
          · exact Or.inl (hq.trans hm)
        · exact Or.inr ⟨p', List.mem_cons_of_mem p hp', hq⟩
      · exact hle.trans (min_le_right _ _)
      · intro p' hp'
        rcases List.mem_cons.mp hp' with rfl | hp'
        · exact hle.trans (min_le_left _ _)
        · exact hall p' hp'

theorem foldl_updMin_none (c : PyDateTime) (p : PyDateTime)
    (rest : List PyDateTime) :
    ∃ q : ℚ,
      (p :: rest).foldl (fun m x => updMin m (diffMinutes x c)) none = some q ∧
        IsMinDiff c (p :: rest) q := by
  obtain ⟨q, hfold, hq, hle, hall⟩ := foldl_updMin_some c rest (diffMinutes p c)
  refine ⟨q, by simpa [updMin] using hfold, ⟨?_, ?_⟩⟩
  · rcases hq with hq | ⟨p', hp', hq⟩
    · exact ⟨p, List.mem_cons_self p rest, hq.symm⟩
    · exact ⟨p', List.mem_cons_of_mem p hp', hq⟩
  · intro p' hp'
    rcases List.mem_cons.mp hp' with rfl | hp'
    · exact hle
    · exact hall p' hp'

/-- The PM candidate built by `resolve_ecg_ambiguity` (line 240). -/
def pmCandidate (ecg : PyDateTime) : PyDateTime :=
  if ecg.hour < 12 then { ecg with hour := ecg.hour + 12 } else ecg

/-- C4 (amended): the source resolver applies one unconditional loose
threshold of 120 minutes, with no same-session tight threshold: with
nonempty corroboration it returns the candidate whose minimum difference is
within 120 minutes and strictly smaller than the other candidate's minimum,
and otherwise (ties, or both minima above 120 minutes) it falls through to
the fallback heuristic. -/
theorem resolveEcgAmbiguity_loose_threshold (ecg : PyDateTime)
    (ps : List PyDateTime) (h1 : 1 ≤ ecg.hour) (h2 : ecg.hour ≤ 12)
    (hne : ps ≠ []) :
    ∃ qA qP : ℚ, IsMinDiff ecg ps qA ∧ IsMinDiff (pmCandidate ecg) ps qP ∧
      resolveEcgAmbiguity ecg ps =
        (if qA ≤ 120 ∧ qA < qP then ecg
         else if qP ≤ 120 ∧ qP < qA then pmCandidate ecg
         else resolveWithHeuristics ecg) := by
  cases ps with
  | nil => exact absurd rfl hne
  | cons p rest =>
      obtain ⟨qA, hfoldA, hminA⟩ := foldl_updMin_none ecg p rest
      obtain ⟨qP, hfoldP, hminP⟩ := foldl_updMin_none (pmCandidate ecg) p rest
      refine ⟨qA, qP, hminA, hminP, ?_⟩
      unfold resolveEcgAmbiguity
      rw [if_neg (by simp [h1, h2])]
      simp only [minDiffsAux_foldl, pmCandidate] at hfoldA hfoldP ⊢
      rw [hfoldA, hfoldP]
      simp only [qleInf, qltInf]
      split_ifs with hA hP <;> simp_all

/-- C4 witness: the loose-threshold characterization applied to the
counterexample input (ECG 02:00, corroboration at 14:30). -/
theorem resolveEcgAmbiguity_loose_threshold_witness :
    ∃ qA qP : ℚ,
      IsMinDiff ⟨0, 2, 0, 0⟩ [⟨0, 14, 30, 0⟩] qA ∧
        IsMinDiff (pmCandidate ⟨0, 2, 0, 0⟩) [⟨0, 14, 30, 0⟩] qP ∧
        resolveEcgAmbiguity ⟨0, 2, 0, 0⟩ [⟨0, 14, 30, 0⟩] =
          (if qA ≤ 120 ∧ qA < qP then ⟨0, 2, 0, 0⟩
           else if qP ≤ 120 ∧ qP < qA then pmCandidate ⟨0, 2, 0, 0⟩
           else resolveWithHeuristics ⟨0, 2, 0, 0⟩) :=
  resolveEcgAmbiguity_loose_threshold ⟨0, 2, 0, 0⟩ [⟨0, 14, 30, 0⟩]
    (by decide) (by decide) (by decide)

/-- C6: ambiguity resolution cannot fail: `_resolve_with_heuristics` is total
and returns its input datetime unchanged on every ambiguous hour, so with no
corroboration the resolver yields the hour as extracted — hours 1-11 stay in
the AM range and hour 12 stays noon (PM). -/
theorem resolveEcgAmbiguity_fallback (dt : PyDateTime) (h1 : 1 ≤ dt.hour)
    (h2 : dt.hour ≤ 12) :
    resolveEcgAmbiguity dt [] = dt ∧ resolveWithHeuristics dt = dt ∧
      (dt.hour ≤ 11 → (resolveEcgAmbiguity dt []).hour = dt.hour ∧
        (resolveEcgAmbiguity dt []).hour < 12) ∧
      (dt.hour = 12 → (resolveEcgAmbiguity dt []).hour = 12) := by
  have hres : resolveEcgAmbiguity dt [] = dt := by
    unfold resolveEcgAmbiguity
    rw [if_neg (by simp [h1, h2])]
    unfold resolveWithHeuristics
    split_ifs <;> rfl
  have hheu : resolveWithHeuristics dt = dt := by
    unfold resolveWithHeuristics
    split_ifs <;> rfl
  refine ⟨hres, hheu, fun h11 => ⟨by rw [hres], by rw [hres]; omega⟩,
    fun h12 => by rw [hres, h12]⟩

/-- C6 witness: hour 3 with no corroboration resolves to 03:15 unchanged,
an AM time; the noon case is the final implication, vacuous here. -/
theorem resolveEcgAmbiguity_fallback_witness :
    resolveEcgAmbiguity ⟨0, 3, 15, 0⟩ [] = ⟨0, 3, 15, 0⟩ ∧
      resolveWithHeuristics ⟨0, 3, 15, 0⟩ = ⟨0, 3, 15, 0⟩ ∧
      ((⟨0, 3, 15, 0⟩ : PyDateTime).hour ≤ 11 →
        (resolveEcgAmbiguity ⟨0, 3, 15, 0⟩ []).hour =
            (⟨0, 3, 15, 0⟩ : PyDateTime).hour ∧
          (resolveEcgAmbiguity ⟨0, 3, 15, 0⟩ []).hour < 12) ∧
      ((⟨0, 3, 15, 0⟩ : PyDateTime).hour = 12 →
        (resolveEcgAmbiguity ⟨0, 3, 15, 0⟩ []).hour = 12) :=
  resolveEcgAmbiguity_fallback ⟨0, 3, 15, 0⟩ (by decide) (by decide)

/- ## Canonical source selection -/

/-- A candidate file as collected by `find_best_pressure_file`
(`content_based_ampm_resolver.py` lines 46-70) and `find_best_csv_file`
(`improved_pressure_analyzer.py` lines 61-83): path, byte size (> 0 already
filtered), and modification time. -/
structure FileDesc where
  path : String
  size : Nat
  mtime : Int
deriving DecidableEq

/-- `a` sorts no later than `b` under `sort(key=lambda x: (-size, -mtime))`:
descending lexicographic order on (size, mtime). -/
def fileBefore (a b : FileDesc) : Prop :=
  b.size < a.size ∨ (a.size = b.size ∧ b.mtime ≤ a.mtime)

instance (a b : FileDesc) : Decidable (fileBefore a b) := by
  unfold fileBefore; infer_instance

theorem fileBefore_total (a b : FileDesc) : fileBefore a b ∨ fileBefore b a := by
  unfold fileBefore; omega

theorem fileBefore_trans {a b c : FileDesc} (h1 : fileBefore a b)
    (h2 : fileBefore b c) : fileBefore a c := by
  unfold fileBefore at *; omega

/-- Insert into a list sorted by `fileBefore`. -/
def insertFile (x : FileDesc) : List FileDesc → List FileDesc
  | [] => [x]
  | y :: ys => if fileBefore x y then x :: y :: ys else y :: insertFile x ys

/-- `pressure_files.sort(key=lambda x: (-x[1], -x[2]))` (line 85 of
`content_based_ampm_resolver.py`, line 96 of `improved_pressure_analyzer.py`). -/
def sortFiles : List FileDesc → List FileDesc
  | [] => []
  | x :: xs => insertFile x (sortFiles xs)

/-- `ContentBasedAMPMResolver.find_best_pressure_file` (lines 74-103) and
`ImprovedPressureAnalyzer.find_best_csv_file` (lines 85-114), selection part:
no candidates gives `None`; a single candidate is returned directly without
ranking; otherwise sort by descending (size, mtime) and take the first. -/
def findBestPressureFile : List FileDesc → Option FileDesc
  | [] => none
  | [f] => some f
  | f :: g :: rest => (sortFiles (f :: g :: rest)).head?

theorem mem_insertFile {x y : FileDesc} {l : List FileDesc} :
    y ∈ insertFile x l ↔ y = x ∨ y ∈ l := by
  induction l with
  | nil => simp [insertFile]
  | cons z zs ih =>
      unfold insertFile
      split_ifs with h
      · simp [List.mem_cons]
      · simp only [List.mem_cons, ih]
        tauto

theorem sortFiles_head_max (l : List FileDesc) (hne : l ≠ []) :
    ∃ b, (sortFiles l).head? = some b ∧ b ∈ l ∧ ∀ x ∈ l, fileBefore b x := by
  induction l with
  | nil => exact absurd rfl hne
  | cons f fs ih =>
      cases fs with
      | nil =>
          refine ⟨f, rfl, List.mem_cons_self f [], ?_⟩
          intro x hx
          rcases List.mem_cons.mp hx with rfl | hx
          · rcases fileBefore_total x x with h | h <;> exact h
          · simp at hx
      | cons g gs =>
          obtain ⟨b, hhead, hmem, hmax⟩ := ih (by simp)
          obtain ⟨t, hsort⟩ : ∃ t, sortFiles (g :: gs) = b :: t := by
            cases hs : sortFiles (g :: gs) with
            | nil => rw [hs] at hhead; simp at hhead
            | cons a t => rw [hs] at hhead; simp at hhead; exact ⟨t, by rw [hhead]⟩
          show ∃ b', (insertFile f (sortFiles (g :: gs))).head? = some b' ∧ _
          rw [hsort]
          unfold insertFile
          split_ifs with hbf
          · refine ⟨f, rfl, List.mem_cons_self f _, ?_⟩
            intro x hx
            rcases List.mem_cons.mp hx with rfl | hx
            · rcases fileBefore_total x x with h | h <;> exact h
            · exact fileBefore_trans hbf (hmax x hx)
          · refine ⟨b, rfl, List.mem_cons_of_mem f hmem, ?_⟩
            intro x hx
            rcases List.mem_cons.mp hx with rfl | hx
            · rcases fileBefore_total b x with h | h
              · exact h
              · exact absurd h hbf
            · exact hmax x hx

/-- C7: canonical source selection: empty input yields `none`; a single file
is returned unconditionally; with two or more candidates the selected file is
a maximum of the descending (size, mtime) lexicographic order, hence a
strictly larger file always wins, and among files of one size the one with
the latest modification time wins. -/
theorem findBestPressureFile_spec (l : List FileDesc) :
    (findBestPressureFile [] = none) ∧
      (∀ f : FileDesc, findBestPressureFile [f] = some f) ∧
      (2 ≤ l.length →
        (∃ b, findBestPressureFile l = some b ∧ b ∈ l ∧
          ∀ x ∈ l, fileBefore b x) ∧
        (∀ f ∈ l, (∀ x ∈ l, x ≠ f → x.size < f.size) →
          findBestPressureFile l = some f) ∧
        (∀ f ∈ l, (∀ x ∈ l, x ≠ f → x.size = f.size ∧ x.mtime < f.mtime) →
          findBestPressureFile l = some f)) := by
  refine ⟨rfl, fun f => rfl, fun hlen => ?_⟩
  have hform : ∃ f g rest, l = f :: g :: rest := by
    cases l with
    | nil => simp at hlen
    | cons f fs =>
        cases fs with
        | nil => simp at hlen
        | cons g rest => exact ⟨f, g, rest, rfl⟩
  obtain ⟨f, g, rest, rfl⟩ := hform
  have hmain : ∃ b, findBestPressureFile (f :: g :: rest) = some b ∧
      b ∈ f :: g :: rest ∧ ∀ x ∈ f :: g :: rest, fileBefore b x := by
    obtain ⟨b, hh, hm, hx⟩ := sortFiles_head_max (f :: g :: rest) (by simp)
    exact ⟨b, hh, hm, hx⟩
  obtain ⟨b, hb, hbm, hbmax⟩ := hmain
  refine ⟨⟨b, hb, hbm, hbmax⟩, ?_, ?_⟩
  · intro f' hf' hbig
    have : b = f' := by
      by_contra hne
      have h1 := hbig b hbm hne
      have h2 := hbmax f' hf'
      unfold fileBefore at h2
      omega
    rw [hb, this]
  · intro f' hf' hnewer
    have : b = f' := by
      by_contra hne
      have h1 := hnewer b hbm hne
      have h2 := hbmax f' hf'
      unfold fileBefore at h2
      omega
    rw [hb, this]

/-- C7 witness: two equal-size files, the more recently modified one wins;
instantiates the selection characterization at a concrete pair. -/
theorem findBestPressureFile_spec_witness :
    ∃ b, findBestPressureFile
        [⟨"a.csv", 10, 5⟩, ⟨"b.csv", 10, 9⟩] = some b ∧
      b ∈ [(⟨"a.csv", 10, 5⟩ : FileDesc), ⟨"b.csv", 10, 9⟩] ∧
      ∀ x ∈ [(⟨"a.csv", 10, 5⟩ : FileDesc), ⟨"b.csv", 10, 9⟩], fileBefore b x :=
  ((findBestPressureFile_spec
    [⟨"a.csv", 10, 5⟩, ⟨"b.csv", 10, 9⟩]).2.2 (by decide)).1

/- ## Dashboard consecutive-day computation (`dashboard.py`) -/

/-- The per-slot JSON object the dashboard reads from a report.  The
dashboard only ever reads the `pressure_count` key (with default 0); the
`ecg_count` field carries the slot's ECG count for stating the
specification-side completeness criterion and is never read by the dashboard
functions below.  The records actually produced by
`analyze_patient_completeness` carry only the boolean `pressure`/`ecg` keys. -/
structure SlotJson where
  pressure_count : Option Nat
  ecg_count : Option Nat
  pressure : Option Bool
  ecg : Option Bool
deriving DecidableEq

/-- A requirements dict; missing keys fall back to the defaults used at the
call sites (`requirements.get('pressure_per_slot', 2)`). -/
structure Requirements where
  pressure_per_slot : Option Nat
  ecg_per_slot : Option Nat
deriving DecidableEq

/-- Lines 73-86 of `dashboard.py`: a day is complete when both the
`'matutina'` and the `'vespertina'` entries exist and their
`pressure_count` reaches `pressure_per_slot`; the ECG count is not
consulted. -/
def dashDayComplete (dayData : List (String × SlotJson))
    (reqs : Requirements) : Bool :=
  let matutinaComplete :=
    match dayData.lookup "matutina" with
    | some s => decide (reqs.pressure_per_slot.getD 2 ≤ s.pressure_count.getD 0)
    | none => false
  let vespertinaComplete :=
    match dayData.lookup "vespertina" with
    | some s => decide (reqs.pressure_per_slot.getD 2 ≤ s.pressure_count.getD 0)
    | none => false
  matutinaComplete && vespertinaComplete

/-- The day-completeness test applied at date `d` of the daily data
(lines 68-87: `if date_str in daily_data` and the slot checks). -/
def dashDayCompleteAt (dailyData : List (Int × List (String × SlotJson)))
    (reqs : Requirements) (d : Int) : Bool :=
  match dailyData.lookup d with
  | some dayData => dashDayComplete dayData reqs
  | none => false

/-- The loop of lines 93-104 of `dashboard.py`: `max_consecutive = 0`,
`current_consecutive = 1`, increment on a one-day gap, otherwise fold the
current run into the maximum and restart at 1; after the loop take
`max(max_consecutive, current_consecutive)`. -/
def scanRun : Int → Nat → Nat → List Int → Nat
  | _, cur, best, [] => max best cur
  | prev, cur, best, d :: rest =>
      if d - prev = 1 then scanRun d (cur + 1) best rest
      else scanRun d 1 (max best cur) rest

/-- The consecutive-run length computed from the (sorted, deduplicated)
complete-day list. -/
def maxConsecutiveRun : List Int → Nat
  | [] => 0
  | d :: rest => scanRun d 1 0 rest

/-- `MedicalDashboard.has_consecutive_complete_days` (`dashboard.py` lines
35-109).  Calendar dates are modelled as day numbers (the
string-to-`date` parsing of the ISO keys, lines 53-59, is the identity under
this encoding, so the `except: continue` branch is empty). -/
def hasConsecutiveCompleteDays
    (dailyData : List (Int × List (String × SlotJson)))
    (reqs : Requirements) : Bool × Nat :=
  if dailyData.isEmpty then (false, 0)
  else
    let dateObjects := ((dailyData.map Prod.fst).insertionSort (· ≤ ·)).dedup
    let completeDays := dateObjects.filter (dashDayCompleteAt dailyData reqs)
    if completeDays.isEmpty then (false, 0)
    else
      let maxConsecutive := maxConsecutiveRun completeDays
      (decide (7 ≤ maxConsecutive), maxConsecutive)

/-- Slot completeness as the specification states it: the pressure count and
the ECG count must both reach their per-slot requirements. -/
def specSlotComplete (s : SlotJson) (reqs : Requirements) : Bool :=
  decide (reqs.pressure_per_slot.getD 2 ≤ s.pressure_count.getD 0) &&
    decide (reqs.ecg_per_slot.getD 2 ≤ s.ecg_count.getD 0)

/-- Day completeness as the specification states it: both slots complete. -/
def specDayComplete (dayData : List (String × SlotJson))
    (reqs : Requirements) : Bool :=
  (match dayData.lookup "matutina" with
    | some s => specSlotComplete s reqs
    | none => false) &&
  (match dayData.lookup "vespertina" with
    | some s => specSlotComplete s reqs
    | none => false)

/-- A day whose two slots both have two pressure readings and zero ECGs. -/
def ecglessDay : List (String × SlotJson) :=
  [("matutina", ⟨some 2, some 0, none, none⟩),
   ("vespertina", ⟨some 2, some 0, none, none⟩)]

/-- C1: with `pressure_per_slot = ecg_per_slot = 2`, a day whose slots hold
two pressure readings but no ECG at all is counted as complete by the
dashboard's consecutive-day computation (streak 1), although the
specification's day-completeness criterion — also displayed by the dashboard
itself ("2 presiones + 2 ECGs" per slot) — rejects it: the streak code checks
only the pressure count. -/
theorem dashboard_streak_ignores_ecg :
    hasConsecutiveCompleteDays [(0, ecglessDay)] ⟨some 2, some 2⟩ =
        (false, 1) ∧
      specDayComplete ecglessDay ⟨some 2, some 2⟩ = false := by
  constructor <;> decide

/- ## Completeness aggregation (`monitoring_system.py`) -/

/-- ASCII lower-casing of one character, modelling Python `str.lower()` on
the file paths involved (the substrings tested below are ASCII). -/
def charLower (c : Char) : Char :=
  if 'A' ≤ c ∧ c ≤ 'Z' then Char.ofNat (c.toNat + 32) else c

/-- `pat` is a leading segment of `s`. -/
def charsLead : List Char → List Char → Bool
  | [], _ => true
  | _ :: _, [] => false
  | a :: as, b :: bs => a = b && charsLead as bs

/-- `pat` occurs contiguously somewhere in `s` (Python `pat in s`). -/
def charsSub : List Char → List Char → Bool
  | pat, [] => pat.isEmpty
  | pat, c :: rest => charsLead pat (c :: rest) || charsSub pat rest

/-- `pat in s.lower()` on strings. -/
def strContainsSub (s pat : String) : Bool :=
  charsSub pat.toList (s.toList.map charLower)

/-- One `'pressure'/'ecg'` flag pair of a sub-slot
(`{'pressure': False, 'ecg': False}`). -/
structure SlotFlags where
  pressure : Bool
  ecg : Bool
deriving DecidableEq

/-- The fixed four-key record `analyze_patient_completeness` initialises for
every date (`monitoring_system.py` lines 362-368). -/
structure DayRecord where
  matutina_1 : SlotFlags
  matutina_2 : SlotFlags
  vespertina_1 : SlotFlags
  vespertina_2 : SlotFlags
deriving DecidableEq

def emptyDayRecord : DayRecord :=
  ⟨⟨false, false⟩, ⟨false, false⟩, ⟨false, false⟩, ⟨false, false⟩⟩

/-- A measurement log entry as stored in `self.patient_data` (see
`log_validation`, lines 255-268): validity flag, parsed measurement date
(`none` models both a missing `measurement_time` and an unparseable one,
which the `except` branch skips), slot label, and file path. -/
structure MSMeasurement where
  is_valid : Bool
  measurement_time : Option Int
  time_slot : String
  file_path : String
deriving DecidableEq

/-- Lines 370-378: the file type from the path; `none` is the
`continue` branch for undetermined types. -/
def msFileType (p : String) : Option String :=
  if strContainsSub p "pressure" || strContainsSub p ".csv" then some "pressure"
  else if strContainsSub p "ecg" || strContainsSub p ".pdf" then some "ecg"
  else none

/-- `daily_data[date_key][time_slot][file_type] = True` on one flag pair. -/
def setFlag (f : SlotFlags) (ft : String) : SlotFlags :=
  if ft = "pressure" then { f with pressure := true }
  else if ft = "ecg" then { f with ecg := true }
  else f

/-- Lines 380-385: mark the slot when `time_slot` is one of the four keys;
`none` is the invalid-slot branch, which leaves the record unchanged. -/
def markSlot (r : DayRecord) (slot ft : String) : Option DayRecord :=
  if slot = "matutina_1" then some { r with matutina_1 := setFlag r.matutina_1 ft }
  else if slot = "matutina_2" then some { r with matutina_2 := setFlag r.matutina_2 ft }
  else if slot = "vespertina_1" then some { r with vespertina_1 := setFlag r.vespertina_1 ft }
  else if slot = "vespertina_2" then some { r with vespertina_2 := setFlag r.vespertina_2 ft }
  else none

/-- Lines 361-368: initialise the date's four-slot record if absent
(dict insertion order: new dates go to the end). -/
def ensureDay (l : List (Int × DayRecord)) (d : Int) : List (Int × DayRecord) :=
  if (l.lookup d).isSome then l else l ++ [(d, emptyDayRecord)]

/-- Apply the slot marking at date `d`. -/
def updateDay (l : List (Int × DayRecord)) (d : Int) (slot ft : String) :
    List (Int × DayRecord) :=
  l.map fun p => if p.1 = d then (p.1, (markSlot p.2 slot ft).getD p.2) else p

/-- The body of the measurement loop of `analyze_patient_completeness`
(lines 335-389): skip invalid or undated measurements, initialise the day
record, then mark the slot unless the file type is undetermined. -/
def processMeasurement (acc : List (Int × DayRecord)) (m : MSMeasurement) :
    List (Int × DayRecord) :=
  if m.is_valid = false then acc
  else
    match m.measurement_time with
    | none => acc
    | some d =>
        match msFileType m.file_path with
        | none => ensureDay acc d
        | some ft => updateDay (ensureDay acc d) d m.time_slot ft

/-- The `daily_data` mapping built by `analyze_patient_completeness`. -/
def msDailyData (measurements : List MSMeasurement) : List (Int × DayRecord) :=
  measurements.foldl processMeasurement []

/-- JSON shape of one flag pair: only the `pressure`/`ecg` boolean keys exist
(neither `pressure_count` nor any ECG count). -/
def slotFlagsToJson (f : SlotFlags) : SlotJson :=
  { pressure_count := none, ecg_count := none,
    pressure := some f.pressure, ecg := some f.ecg }

/-- JSON shape of a day record: exactly the four sub-slot keys. -/
def dayRecordToJson (r : DayRecord) : List (String × SlotJson) :=
  [("matutina_1", slotFlagsToJson r.matutina_1),
   ("matutina_2", slotFlagsToJson r.matutina_2),
   ("vespertina_1", slotFlagsToJson r.vespertina_1),
   ("vespertina_2", slotFlagsToJson r.vespertina_2)]

theorem dashDayComplete_toJson (r : DayRecord) (reqs : Requirements) :
    dashDayComplete (dayRecordToJson r) reqs = false := rfl

theorem lookup_map_json (l : List (Int × DayRecord)) (d : Int) :
    ((l.map fun p => (p.1, dayRecordToJson p.2)).lookup d) =
      (l.lookup d).map dayRecordToJson := by
  induction l with
  | nil => rfl
  | cons p rest ih =>
      by_cases h : d = p.1
      · simp [List.lookup, h]
      · have hbeq : (d == p.1) = false := by
          simp [beq_iff_eq, h]
        simp [List.lookup, hbeq, ih]

/-- C2: on every `daily_data` produced by `analyze_patient_completeness`
(whose per-date records expose only the keys `matutina_1`, `matutina_2`,
`vespertina_1`, `vespertina_2`), the dashboard's
`has_consecutive_complete_days` returns `(False, 0)`: its lookups of
`'matutina'`/`'vespertina'` and `'pressure_count'` find nothing, so no day is
ever classified complete, whatever the measurements were. -/
theorem dashboard_zero_on_ms_daily_data (measurements : List MSMeasurement)
    (reqs : Requirements) :
    hasConsecutiveCompleteDays
        ((msDailyData measurements).map fun p => (p.1, dayRecordToJson p.2))
        reqs = (false, 0) := by
  set l := msDailyData measurements with hl
  have hpred : ∀ d, dashDayCompleteAt
      (l.map fun p => (p.1, dayRecordToJson p.2)) reqs d = false := by
    intro d
    unfold dashDayCompleteAt
    rw [lookup_map_json]
    cases l.lookup d with
    | none => rfl
    | some r => simp [dashDayComplete_toJson]
  unfold hasConsecutiveCompleteDays
  split_ifs with h
  · rfl
  · have : ∀ dates : List Int,
        dates.filter (dashDayCompleteAt
          (l.map fun p => (p.1, dayRecordToJson p.2)) reqs) = [] := by
      intro dates
      apply List.filter_eq_nil_iff.mpr
      intro d _
      simp [hpred d]
    simp only [this, List.isEmpty_nil, if_true]

/-- The four sub-slots of a day record, in dict iteration order. -/
def slotsOf (r : DayRecord) : List (String × SlotFlags) :=
  [("matutina_1", r.matutina_1), ("matutina_2", r.matutina_2),
   ("vespertina_1", r.vespertina_1), ("vespertina_2", r.vespertina_2)]

/-- One entry of `missing_measurements` (lines 411-415). -/
structure MissingEntry where
  date : Int
  time_slot : String
  missing : List String
deriving DecidableEq

/-- Lines 404-408: the kinds missing from one sub-slot. -/
def slotMissingItems (f : SlotFlags) : List String :=
  (if f.pressure then [] else ["presión"]) ++ (if f.ecg then [] else ["ECG"])

/-- Lines 397-402: a sub-slot counts as received when both flags are set. -/
def receivedMeasurements (daily : List (Int × DayRecord)) : Nat :=
  (daily.map fun p =>
    ((slotsOf p.2).filter fun s => s.2.pressure && s.2.ecg).length).sum

/-- Lines 398-415: the missing-measurement entries of one day. -/
def missingOfDay (d : Int) (r : DayRecord) : List MissingEntry :=
  (slotsOf r).filterMap fun s =>
    if s.2.pressure && s.2.ecg then none
    else
      let items := slotMissingItems s.2
      if items.isEmpty then none else some ⟨d, s.1, items⟩

def missingMeasurements (daily : List (Int × DayRecord)) : List MissingEntry :=
  daily.flatMap fun p => missingOfDay p.1 p.2

/-- Python `round(q, 2)`, modelled with round-to-nearest (Python uses
round-half-to-even on the tie `q * 100 = k + 1/2`, which no statement below
depends on). -/
def round2 (q : ℚ) : ℚ := (round (q * 100) : ℤ) / 100

/-- One value of `self.patient_data` (lines 271-278). -/
structure PatientInfo where
  measurements : List MSMeasurement
  last_update : String
deriving DecidableEq

/-- The per-patient report returned by `analyze_patient_completeness`
(lines 428-437). -/
structure PatientReport where
  patient_name : String
  expected_measurements : Nat
  received_measurements : Nat
  completion_percentage : ℚ
  is_complete : Bool
  missing_measurements : List MissingEntry
  daily_data : List (Int × DayRecord)
  last_update : String
deriving DecidableEq

/-- `MonitoringSystem.analyze_patient_completeness` (lines 325-437). -/
def analyzePatientCompleteness (name : String) (info : PatientInfo)
    (studyDays measurementsPerDay : Nat) : PatientReport :=
  let daily := msDailyData info.measurements
  let received := receivedMeasurements daily
  let expectedBase := studyDays * measurementsPerDay
  let expected := if expectedBase < received then received else expectedBase
  let percentage : ℚ :=
    if 0 < expected then round2 ((received : ℚ) / (expected : ℚ) * 100) else 0
  { patient_name := name,
    expected_measurements := expected,
    received_measurements := received,
    completion_percentage := percentage,
    is_complete := decide (100 ≤ percentage),
    missing_measurements := missingMeasurements daily,
    daily_data := daily,
    last_update := info.last_update }

/-- `overall_summary` of the report (lines 291-297, 313-321). -/
structure OverallSummary where
  total_patients : Nat
  patients_complete : Nat
  patients_incomplete : Nat
  total_measurements_expected : Nat
  total_measurements_received : Nat
deriving DecidableEq

/-- The full report of `generate_completeness_report` (lines 286-323). -/
structure Report where
  generation_date : String
  patients : List (String × PatientReport)
  overall_summary : OverallSummary
deriving DecidableEq

/-- `MonitoringSystem.generate_completeness_report` (lines 286-323), with the
call `datetime.now().isoformat()` of line 289 made an explicit `now`
argument; the per-patient loop is expressed as the equivalent map/fold. -/
def generateCompletenessReport (now : String)
    (patientData : List (String × PatientInfo))
    (studyDays measurementsPerDay : Nat) : Report :=
  let patients := patientData.map fun p =>
    (p.1, analyzePatientCompleteness p.1 p.2 studyDays measurementsPerDay)
  { generation_date := now,
    patients := patients,
    overall_summary :=
      { total_patients := patients.length,
        patients_complete := (patients.filter fun p => p.2.is_complete).length,
        patients_incomplete :=
          (patients.filter fun p => !p.2.is_complete).length,
        total_measurements_expected :=
          (patients.map fun p => p.2.expected_measurements).sum,
        total_measurements_received :=
          (patients.map fun p => p.2.received_measurements).sum } }

/-- C8 counterexample: the same (empty) measurement set aggregated at two
clock instants yields reports differing in `generation_date`
(`datetime.now()` at line 289), so re-running does not give byte-for-byte
identical reports. -/
theorem report_not_byte_identical :
    generateCompletenessReport "2025-06-01T00:00:00" [] 7 4 ≠
      generateCompletenessReport "2025-06-02T00:00:00" [] 7 4 := by
  decide

/-- C8 (amended): apart from the `generation_date` stamp, the report is a
deterministic function of the measurement set and the configured
requirements: the per-patient reports and the overall summary are identical
across runs at different clock times. -/
theorem report_deterministic_except_date (t₁ t₂ : String)
    (patientData : List (String × PatientInfo))
    (studyDays measurementsPerDay : Nat) :
    (generateCompletenessReport t₁ patientData studyDays
        measurementsPerDay).patients =
      (generateCompletenessReport t₂ patientData studyDays
        measurementsPerDay).patients ∧
    (generateCompletenessReport t₁ patientData studyDays
        measurementsPerDay).overall_summary =
      (generateCompletenessReport t₂ patientData studyDays
        measurementsPerDay).overall_summary :=
  ⟨rfl, rfl⟩

/- ## Longest-run characterization of the consecutive-day scan -/

/-- Length of the initial block of the list that continues `prev` by
consecutive +1 steps. -/
def headRun (prev : Int) : List Int → Nat
  | [] => 0
  | d :: rest => if d - prev = 1 then 1 + headRun d rest else 0

/-- Remainder of the list after that initial consecutive block. -/
def dropRun (prev : Int) : List Int → List Int
  | [] => []
  | d :: rest => if d - prev = 1 then dropRun d rest else d :: rest

theorem scanRun_closed (l : List Int) : ∀ (prev : Int) (cur best : Nat),
    scanRun prev cur best l =
      max best (max (cur + headRun prev l)
        (maxConsecutiveRun (dropRun prev l))) := by
  induction l with
  | nil =>
      intro prev cur best
      simp only [scanRun, headRun, dropRun, maxConsecutiveRun]
      omega
  | cons d rest ih =>
      intro prev cur best
      by_cases h : d - prev = 1
      · simp only [scanRun, headRun, dropRun, if_pos h]
        rw [ih]
        omega
      · simp only [scanRun, headRun, dropRun, if_neg h]
        rw [ih]
        have h2 : maxConsecutiveRun (d :: rest) =
            max 0 (max (1 + headRun d rest)
              (maxConsecutiveRun (dropRun d rest))) := by
          show scanRun d 1 0 rest = _
          rw [ih]
        rw [h2]
        omega

/-- The list contains a block of `n` consecutive integers. -/
def hasRun (S : List Int) (n : Nat) : Prop :=
  ∃ a : Int, ∀ k : Nat, k < n → a + (k : Int) ∈ S

theorem hasRun_zero (S : List Int) : hasRun S 0 :=
  ⟨0, fun _ hk => absurd hk (by omega)⟩

theorem hasRun_of_desc {S : List Int} {prev : Int} {cur : Nat}
    (hcur : ∀ k : Nat, k < cur → prev - (k : Int) ∈ S) : hasRun S cur := by
  refine ⟨prev - ((cur - 1 : Nat) : Int), fun k hk => ?_⟩
  have heq : prev - ((cur - 1 : Nat) : Int) + (k : Int) =
      prev - ((cur - 1 - k : Nat) : Int) := by omega
  rw [heq]
  exact hcur _ (by omega)

theorem hasRun_max {S : List Int} {prev : Int} {cur best : Nat}
    (hcur : ∀ k : Nat, k < cur → prev - (k : Int) ∈ S)
    (hbest : hasRun S best) : hasRun S (max best cur) := by
  rcases Nat.le_total cur best with h | h
  · rwa [Nat.max_eq_left h]
  · rw [Nat.max_eq_right h]
    exact hasRun_of_desc hcur

theorem scanRun_lb (l : List Int) : ∀ (S : List Int) (prev : Int)
    (cur best : Nat), (∀ x ∈ l, x ∈ S) →
    (∀ k : Nat, k < cur → prev - (k : Int) ∈ S) → hasRun S best →
    hasRun S (scanRun prev cur best l) := by
  induction l with
  | nil =>
      intro S prev cur best _ hcur hbest
      exact hasRun_max hcur hbest
  | cons d rest ih =>
      intro S prev cur best hsub hcur hbest
      by_cases h : d - prev = 1
      · rw [show scanRun prev cur best (d :: rest) =
            scanRun d (cur + 1) best rest from by simp [scanRun, h]]
        refine ih S d (cur + 1) best
          (fun x hx => hsub x (List.mem_cons_of_mem d hx)) ?_ hbest
        intro k hk
        rcases Nat.eq_zero_or_pos k with rfl | hkpos
        · simpa using hsub d (List.mem_cons_self d rest)
        · have heq : d - (k : Int) = prev - ((k - 1 : Nat) : Int) := by omega
          rw [heq]
          exact hcur (k - 1) (by omega)
      · rw [show scanRun prev cur best (d :: rest) =
            scanRun d 1 (max best cur) rest from by simp [scanRun, h]]
        refine ih S d 1 (max best cur)
          (fun x hx => hsub x (List.mem_cons_of_mem d hx)) ?_
          (hasRun_max hcur hbest)
        intro k hk
        have hk0 : k = 0 := by omega
        subst hk0
        simpa using hsub d (List.mem_cons_self d rest)

theorem maxConsecutiveRun_lb (l : List Int) : hasRun l (maxConsecutiveRun l) := by
  cases l with
  | nil => exact hasRun_zero []
  | cons d rest =>
      show hasRun _ (scanRun d 1 0 rest)
      refine scanRun_lb rest (d :: rest) d 1 0
        (fun x hx => List.mem_cons_of_mem d hx) ?_ (hasRun_zero _)
      intro k hk
      have hk0 : k = 0 := by omega
      subst hk0
      simp

theorem chain_head_le {l : List Int} {d x : Int}
    (hc : List.Chain' (· < ·) (d :: l)) (hx : x ∈ d :: l) : d ≤ x := by
  rcases List.mem_cons.mp hx with rfl | hx
  · exact le_refl x
  · have hp := List.chain'_iff_pairwise.mp hc
    exact le_of_lt ((List.pairwise_cons.mp hp).1 x hx)

theorem run_le_headRun (rest : List Int) : ∀ (d : Int) (n : Nat),
    List.Chain' (· < ·) (d :: rest) →
    (∀ k : Nat, k < n → d + (k : Int) ∈ d :: rest) →
    n ≤ 1 + headRun d rest := by
  induction rest with
  | nil =>
      intro d n _ hrun
      by_contra hlt
      push_neg at hlt
      have h1 := hrun 1 (by simp only [headRun] at hlt; omega)
      rcases List.mem_cons.mp h1 with h2 | h2
      · omega
      · simp at h2
  | cons e rest' ih =>
      intro d n hc hrun
      by_cases hn : n ≤ 1
      · omega
      · push_neg at hn
        have h1 : d + (1 : Int) ∈ d :: e :: rest' := by
          have := hrun 1 (by omega)
          simpa using this
        have h1' : d + 1 ∈ e :: rest' := by
          rcases List.mem_cons.mp h1 with he | h2
          · exact absurd he (by omega)
          · exact h2
        have hde : d < e := (List.chain'_cons.mp hc).1
        have hc' : List.Chain' (· < ·) (e :: rest') := (List.chain'_cons.mp hc).2
        have hee : e ≤ d + 1 := chain_head_le hc' h1'
        have hhr : headRun d (e :: rest') = 1 + headRun e rest' := by
          simp [headRun, show e - d = 1 by omega]
        rw [hhr]
        have hrun' : ∀ k : Nat, k < n - 1 → e + (k : Int) ∈ e :: rest' := by
          intro k hk
          have hmem := hrun (k + 1) (by omega)
          have heq2 : d + ((k + 1 : Nat) : Int) = e + (k : Int) := by omega
          rw [heq2] at hmem
          rcases List.mem_cons.mp hmem with hd2 | h3
          · exact absurd hd2 (by omega)
          · exact h3
        have hrec := ih e (n - 1) hc' hrun'
        omega

theorem block_end_not_mem (rest : List Int) : ∀ d : Int,
    List.Chain' (· < ·) (d :: rest) →
    d + (headRun d rest : Int) + 1 ∉ d :: rest := by
  induction rest with
  | nil =>
      intro d _ hmem
      rcases List.mem_cons.mp hmem with h2 | h2
      · simp [headRun] at h2
      · simp at h2
  | cons e rest' ih =>
      intro d hc hmem
      have hde : d < e := (List.chain'_cons.mp hc).1
      have hc' := (List.chain'_cons.mp hc).2
      by_cases h : e - d = 1
      · have hhr : headRun d (e :: rest') = 1 + headRun e rest' := by
          simp [headRun, h]
        rw [hhr] at hmem
        have hmem' : d + ((1 + headRun e rest' : Nat) : Int) + 1 ∈ e :: rest' := by
          rcases List.mem_cons.mp hmem with h2 | h2
          · exact absurd h2 (by omega)
          · exact h2
        apply ih e hc'
        have heq : d + ((1 + headRun e rest' : Nat) : Int) + 1 =
            e + (headRun e rest' : Int) + 1 := by omega
        rwa [heq] at hmem'
      · have hhr : headRun d (e :: rest') = 0 := by simp [headRun, h]
        rw [hhr] at hmem
        rcases List.mem_cons.mp hmem with h2 | h2
        · omega
        · have := chain_head_le hc' h2
          omega

theorem mem_dropRun_or_le (l : List Int) : ∀ prev : Int,
    List.Chain' (· < ·) (prev :: l) → ∀ x ∈ l,
    x ∈ dropRun prev l ∨ x ≤ prev + (headRun prev l : Int) := by
  induction l with
  | nil =>
      intro prev _ x hx
      simp at hx
  | cons d rest ih =>
      intro prev hc x hx
      have hc' := (List.chain'_cons.mp hc).2
      by_cases h : d - prev = 1
      · have hdrop : dropRun prev (d :: rest) = dropRun d rest := by
          simp [dropRun, h]
        have hhr : headRun prev (d :: rest) = 1 + headRun d rest := by
          simp [headRun, h]
        rw [hdrop, hhr]
        rcases List.mem_cons.mp hx with rfl | hx'
        · right; omega
        · rcases ih d hc' x hx' with h2 | h2
          · left; exact h2
          · right; omega
      · have hdrop : dropRun prev (d :: rest) = d :: rest := by
          simp [dropRun, h]
        rw [hdrop]
        left
        exact hx

theorem chain_dropRun (l : List Int) : ∀ prev : Int,
    List.Chain' (· < ·) (prev :: l) →
    List.Chain' (· < ·) (dropRun prev l) := by
  induction l with
  | nil =>
      intro prev _
      simp [dropRun]
  | cons d rest ih =>
      intro prev hc
      have hc' := (List.chain'_cons.mp hc).2
      by_cases h : d - prev = 1
      · rw [show dropRun prev (d :: rest) = dropRun d rest from by
          simp [dropRun, h]]
        exact ih d hc'
      · rw [show dropRun prev (d :: rest) = d :: rest from by
          simp [dropRun, h]]
        exact hc'

theorem dropRun_length_le (l : List Int) : ∀ prev : Int,
    (dropRun prev l).length ≤ l.length := by
  induction l with
  | nil =>
      intro prev
      simp [dropRun]
  | cons d rest ih =>
      intro prev
      by_cases h : d - prev = 1
      · rw [show dropRun prev (d :: rest) = dropRun d rest from by
          simp [dropRun, h]]
        have := ih d
        simp only [List.length_cons]
        omega
      · rw [show dropRun prev (d :: rest) = d :: rest from by
          simp [dropRun, h]]

theorem mcr_ub_aux : ∀ (m : Nat) (l : List Int), l.length ≤ m →
    List.Chain' (· < ·) l → ∀ (n : Nat) (a : Int),
    (∀ k : Nat, k < n → a + (k : Int) ∈ l) → n ≤ maxConsecutiveRun l := by
  intro m
  induction m with
  | zero =>
      intro l hlen _ n a hrun
      have hl : l = [] := by
        cases l with
        | nil => rfl
        | cons x xs => simp at hlen
      subst hl
      by_contra hn
      have := hrun 0 (by omega)
      simp at this
  | succ m ih =>
      intro l hlen hchain n a hrun
      cases l with
      | nil =>
          by_contra hn
          have := hrun 0 (by omega)
          simp at this
      | cons d rest =>
          have hform : maxConsecutiveRun (d :: rest) =
              max (1 + headRun d rest)
                (maxConsecutiveRun (dropRun d rest)) := by
            show scanRun d 1 0 rest = _
            rw [scanRun_closed]
            omega
          rcases Nat.eq_zero_or_pos n with rfl | hn
          · omega
          · have ha_mem : a ∈ d :: rest := by simpa using hrun 0 hn
            have hd_le : d ≤ a := chain_head_le hchain ha_mem
            by_cases hcase : a = d
            · subst hcase
              have := run_le_headRun rest a n hchain hrun
              omega
            · have hlt : d < a := lt_of_le_of_ne hd_le (fun hh => hcase hh.symm)
              have hrest : ∀ k : Nat, k < n → a + (k : Int) ∈ rest := by
                intro k hk
                rcases List.mem_cons.mp (hrun k hk) with he | h2
                · exact absurd he (by omega)
                · exact h2
              by_cases hblock : a ≤ d + (headRun d rest : Int)
              · by_contra hcon
                push_neg at hcon
                have hk0lt : (d + (headRun d rest : Int) + 1 - a).toNat < n := by
                  omega
                have hmem := hrun _ hk0lt
                have heq : a + (((d + (headRun d rest : Int) + 1 - a).toNat : Nat) : Int) =
                    d + (headRun d rest : Int) + 1 := by omega
                rw [heq] at hmem
                exact block_end_not_mem rest d hchain hmem
              · push_neg at hblock
                have hdrop_run : ∀ k : Nat, k < n →
                    a + (k : Int) ∈ dropRun d rest := by
                  intro k hk
                  rcases mem_dropRun_or_le rest d hchain _ (hrest k hk) with h2 | h2
                  · exact h2
                  · omega
                have hlen' : (dropRun d rest).length ≤ m := by
                  have := dropRun_length_le rest d
                  simp only [List.length_cons] at hlen
                  omega
                have := ih (dropRun d rest) hlen'
                  (chain_dropRun rest d hchain) n a hdrop_run
                omega

/-- A report day whose two dashboard-visible slots each hold two pressure and
two ECG readings. -/
def completeDayJson : List (String × SlotJson) :=
  [("matutina", ⟨some 2, some 2, none, none⟩),
   ("vespertina", ⟨some 2, some 2, none, none⟩)]

/-- Daily data whose complete dates are day numbers 1, 2, 3, 5, 6, 7, 8 —
the encoding of 2025-01-01..03 and 2025-01-05..08 with a gap at day 4. -/
def exampleSevenDates : List (Int × List (String × SlotJson)) :=
  [(1, completeDayJson), (2, completeDayJson), (3, completeDayJson),
   (5, completeDayJson), (6, completeDayJson), (7, completeDayJson),
   (8, completeDayJson)]

/-- C5: the scan of lines 93-104 of `dashboard.py` computes exactly the
length of the longest block of calendar-consecutive dates in the (sorted,
deduplicated) complete-date list: the returned value is achieved by some
block of consecutive dates in the list, and no block of consecutive dates in
the list is longer; and on complete dates {1,2,3,5,6,7,8} (a gap at 4,
encoding 2025-01-01..08 without 01-04) the dashboard returns a streak of 4. -/
theorem consecutive_run_longest :
    (∀ l : List Int, List.Chain' (· < ·) l →
      (∃ a : Int, ∀ k : Nat, k < maxConsecutiveRun l → a + (k : Int) ∈ l) ∧
        ∀ (n : Nat) (a : Int), (∀ k : Nat, k < n → a + (k : Int) ∈ l) →
          n ≤ maxConsecutiveRun l) ∧
      hasConsecutiveCompleteDays exampleSevenDates ⟨some 2, some 2⟩ =
        (false, 4) := by
  constructor
  · intro l hchain
    exact ⟨maxConsecutiveRun_lb l,
      fun n a hrun => mcr_ub_aux l.length l (le_refl _) hchain n a hrun⟩
  · decide

/-- C5 witness: the longest-run characterization instantiated at the
strictly sorted complete-date list {1,2,3,5,6,7,8}. -/
theorem consecutive_run_longest_witness :
    (∃ a : Int, ∀ k : Nat, k < maxConsecutiveRun [1, 2, 3, 5, 6, 7, 8] →
        a + (k : Int) ∈ [(1 : Int), 2, 3, 5, 6, 7, 8]) ∧
      ∀ (n : Nat) (a : Int),
        (∀ k : Nat, k < n → a + (k : Int) ∈ [(1 : Int), 2, 3, 5, 6, 7, 8]) →
          n ≤ maxConsecutiveRun [1, 2, 3, 5, 6, 7, 8] :=
  consecutive_run_longest.1 [1, 2, 3, 5, 6, 7, 8] (by norm_num [List.chain'_cons])

/- ## Measurement extraction (`improved_file_validator.py`) -/

/-- A calendar date, as returned by `datetime.now().date()`. -/
structure CalDate where
  year : Nat
  month : Nat
  day : Nat
deriving DecidableEq

/-- A parsed Python `datetime` (microseconds unused). -/
structure CalDateTime where
  year : Nat
  month : Nat
  day : Nat
  hour : Nat
  minute : Nat
  second : Nat
deriving DecidableEq

/-- One `strptime` directive: a datetime field or a literal character. -/
inductive FTok where
  | year
  | month
  | dayTok
  | hourTok
  | minuteTok
  | secondTok
  | lit (c : Char)
deriving DecidableEq

def digitVal (c : Char) : Option Nat :=
  if '0' ≤ c ∧ c ≤ '9' then some (c.toNat - '0'.toNat) else none

/-- Two-digit-preferred numeric field, as the `strptime` regular expressions
match them (`1[0-2]|0[1-9]|[1-9]` and so on): take two digits when they form
an admissible value, else one digit when admissible.  (The regex engine could
in principle backtrack to the one-digit alternative after a later directive
fails; the separators of the formats used here make that immaterial.) -/
def take2or1 (valid : Nat → Bool) : List Char → Option (Nat × List Char)
  | a :: b :: rest =>
      match digitVal a, digitVal b with
      | some x, some y =>
          if valid (10 * x + y) then some (10 * x + y, rest)
          else if valid x then some (x, b :: rest) else none
      | some x, none => if valid x then some (x, b :: rest) else none
      | none, _ => none
  | [a] =>
      match digitVal a with
      | some x => if valid x then some (x, []) else none
      | none => none
  | [] => none

/-- Exactly four digits (`%Y` matches `\d\d\d\d`). -/
def take4 : List Char → Option (Nat × List Char)
  | a :: b :: c :: d :: rest =>
      match digitVal a, digitVal b, digitVal c, digitVal d with
      | some w, some x, some y, some z =>
          some (1000 * w + 100 * x + 10 * y + z, rest)
      | _, _, _, _ => none
  | _ => none

/-- The `strptime` accumulator with its defaults (1900-01-01 00:00:00). -/
structure PartialDT where
  y : Nat := 1900
  m : Nat := 1
  d : Nat := 1
  h : Nat := 0
  mi : Nat := 0
  s : Nat := 0
deriving DecidableEq

def applyTok (t : FTok) (input : List Char) (acc : PartialDT) :
    Option (List Char × PartialDT) :=
  match t with
  | .year => (take4 input).map fun p => (p.2, { acc with y := p.1 })
  | .month =>
      (take2or1 (fun v => decide (1 ≤ v) && decide (v ≤ 12)) input).map
        fun p => (p.2, { acc with m := p.1 })
  | .dayTok =>
      (take2or1 (fun v => decide (1 ≤ v) && decide (v ≤ 31)) input).map
        fun p => (p.2, { acc with d := p.1 })
  | .hourTok =>
      (take2or1 (fun v => decide (v ≤ 23)) input).map
        fun p => (p.2, { acc with h := p.1 })
  | .minuteTok =>
      (take2or1 (fun v => decide (v ≤ 59)) input).map
        fun p => (p.2, { acc with mi := p.1 })
  | .secondTok =>
      (take2or1 (fun v => decide (v ≤ 61)) input).map
        fun p => (p.2, { acc with s := p.1 })
  | .lit c =>
      match input with
      | a :: rest => if a = c then some (rest, acc) else none
      | [] => none

/-- Run all directives; `strptime` demands the whole string be consumed. -/
def runToks : List FTok → List Char → PartialDT → Option PartialDT
  | [], input, acc => if input.isEmpty then some acc else none
  | t :: ts, input, acc =>
      match applyTok t input acc with
      | some p => runToks ts p.1 p.2
      | none => none

def isLeap (y : Nat) : Bool :=
  y % 4 = 0 && (y % 100 ≠ 0 || y % 400 = 0)

def daysInMonth (y m : Nat) : Nat :=
  if m = 2 then (if isLeap y then 29 else 28)
  else if m = 4 ∨ m = 6 ∨ m = 9 ∨ m = 11 then 30
  else 31

/-- `datetime(...)` construction validation: `strptime` raises `ValueError`
(and the caller falls through to the next format) when the matched numbers do
not form a real calendar datetime. -/
def mkDatetime (p : PartialDT) : Option CalDateTime :=
  if 1 ≤ p.y ∧ p.y ≤ 9999 ∧ 1 ≤ p.m ∧ p.m ≤ 12 ∧ 1 ≤ p.d ∧
      p.d ≤ daysInMonth p.y p.m ∧ p.h ≤ 23 ∧ p.mi ≤ 59 ∧ p.s ≤ 59 then
    some ⟨p.y, p.m, p.d, p.h, p.mi, p.s⟩
  else none

/-- `datetime.strptime(date_str, fmt)` for one format. -/
def strpTime (fmt : List FTok) (s : String) : Option CalDateTime :=
  match runToks fmt s.toList {} with
  | some p => mkDatetime p
  | none => none

/-- The nine formats of `parse_date_string`
(`improved_file_validator.py` lines 208-218), in order, flagged as time-only
when `fmt in ['%H:%M:%S', '%H:%M']` (line 223). -/
def timeFormats : List (List FTok × Bool) :=
  [([.year, .lit '/', .month, .lit '/', .dayTok, .lit ' ', .hourTok, .lit ':',
      .minuteTok], false),
   ([.year, .lit '-', .month, .lit '-', .dayTok, .lit ' ', .hourTok, .lit ':',
      .minuteTok, .lit ':', .secondTok], false),
   ([.dayTok, .lit '/', .month, .lit '/', .year, .lit ' ', .hourTok, .lit ':',
      .minuteTok], false),
   ([.month, .lit '/', .dayTok, .lit '/', .year, .lit ' ', .hourTok, .lit ':',
      .minuteTok], false),
   ([.year, .lit '/', .month, .lit '/', .dayTok, .lit ' ', .hourTok, .lit ':',
      .minuteTok, .lit ':', .secondTok], false),
   ([.dayTok, .lit '-', .month, .lit '-', .year, .lit ' ', .hourTok, .lit ':',
      .minuteTok], false),
   ([.year, .month, .dayTok, .lit ' ', .hourTok, .minuteTok, .secondTok],
      false),
   ([.hourTok, .lit ':', .minuteTok, .lit ':', .secondTok], true),
   ([.hourTok, .lit ':', .minuteTok], true)]

/-- `datetime.combine(datetime.now().date(), parsed_time.time())`
(lines 224-225): the date comes from the clock, the time from the text. -/
def combineToday (today : CalDate) (v : CalDateTime) : CalDateTime :=
  ⟨today.year, today.month, today.day, v.hour, v.minute, v.second⟩

/-- The format loop of `parse_date_string` (lines 220-229). -/
def tryFormats (today : CalDate) :
    List (List FTok × Bool) → String → Option CalDateTime
  | [], _ => none
  | f :: rest, s =>
      match strpTime f.1 s with
      | some v => some (if f.2 then combineToday today v else v)
      | none => tryFormats today rest s

/-- `FileValidator.parse_date_string` (`improved_file_validator.py` lines
204-241).  The final `pd.to_datetime` fallback (lines 232-239) is an external
library call and is passed in as `pdToDatetime`; `datetime.now().date()` is
the explicit `today` argument. -/
def parseDateString (pdToDatetime : String → Option CalDateTime)
    (today : CalDate) (s : String) : Option CalDateTime :=
  match tryFormats today timeFormats s with
  | some v => some v
  | none => pdToDatetime s

/-- A `pd.to_datetime` collaborator that parses nothing. -/
def pdNone : String → Option CalDateTime := fun _ => none

/-- C9 counterexample: the time-only date text "21:07" parses per-row to a
datetime whose date is the current clock day (lines 223-225), so the result
of row-level date parsing is not determined by the row's text alone: the same
text gives different datetimes on different days. -/
theorem parse_time_only_uses_clock :
    parseDateString pdNone ⟨2025, 1, 1⟩ "21:07" =
        some ⟨2025, 1, 1, 21, 7, 0⟩ ∧
      parseDateString pdNone ⟨2025, 1, 2⟩ "21:07" =
        some ⟨2025, 1, 2, 21, 7, 0⟩ ∧
      parseDateString pdNone ⟨2025, 1, 1⟩ "21:07" ≠
        parseDateString pdNone ⟨2025, 1, 2⟩ "21:07" := by
  refine ⟨rfl, rfl, by decide⟩

/-- One decoded CSV row as seen by `extract_all_measurements` after the
per-cell numeric coercion of lines 152-164 (`float(value)`, or the first
number found in the text): each pressure field is present or absent, and the
date cell is `none` when `pd.isna(date_value)` holds. -/
structure Row where
  systolic : Option ℚ
  diastolic : Option ℚ
  pulse : Option ℚ
  dateText : Option String
deriving DecidableEq

/-- The `pressure_data` dict built from a row. -/
structure PressureData where
  systolic : Option ℚ
  diastolic : Option ℚ
  pulse : Option ℚ
deriving DecidableEq

def rowData (r : Row) : PressureData := ⟨r.systolic, r.diastolic, r.pulse⟩

/-- `FileValidator.validate_pressure_ranges`
(`improved_file_validator.py` lines 273-285): each present value outside its
physiological range contributes a warning; nothing is ever rejected.  Ranges:
systolic 70-250, diastolic 40-150, pulse 40-150. -/
def validatePressureRanges (p : PressureData) : List String :=
  (match p.systolic with
    | some v =>
        if 70 ≤ v ∧ v ≤ 250 then []
        else ["Systolic: fuera del rango normal (70-250)"]
    | none => []) ++
  (match p.diastolic with
    | some v =>
        if 40 ≤ v ∧ v ≤ 150 then []
        else ["Diastolic: fuera del rango normal (40-150)"]
    | none => []) ++
  (match p.pulse with
    | some v =>
        if 40 ≤ v ∧ v ≤ 150 then []
        else ["Pulse: fuera del rango normal (40-150)"]
    | none => [])

/-- One extracted measurement (lines 187-193). -/
structure Measurement where
  data : PressureData
  measurement_time : CalDateTime
  time_slot : String
  warnings : List String
deriving DecidableEq

/-- `FileValidator.extract_all_measurements`
(`improved_file_validator.py` lines 131-202), row loop: a row is skipped when
systolic or diastolic is missing (line 167), when the date cell is NA
(line 172) or when no layout parses it (line 178); otherwise the measurement
is appended with its slot and its range warnings. -/
def extractAllMeasurements (pdF : String → Option CalDateTime)
    (today : CalDate) : List Row → List Measurement
  | [] => []
  | r :: rest =>
      if r.systolic.isSome && r.diastolic.isSome then
        match r.dateText with
        | none => extractAllMeasurements pdF today rest
        | some s =>
            match parseDateString pdF today s with
            | none => extractAllMeasurements pdF today rest
            | some mt =>
                { data := rowData r, measurement_time := mt,
                  time_slot := classifyTimeSlot mt.hour,
                  warnings := validatePressureRanges (rowData r) } ::
                  extractAllMeasurements pdF today rest
      else extractAllMeasurements pdF today rest

/-- The retention condition of the row loop. -/
def rowKept (pdF : String → Option CalDateTime) (today : CalDate)
    (r : Row) : Bool :=
  r.systolic.isSome && r.diastolic.isSome &&
    (match r.dateText with
      | some s => (parseDateString pdF today s).isSome
      | none => false)

theorem tryFormats_clock (fmts : List (List FTok × Bool)) (t₁ t₂ : CalDate)
    (s : String) :
    tryFormats t₁ fmts s = tryFormats t₂ fmts s ∨
      ∃ h mi se : Nat, ∀ t : CalDate,
        tryFormats t fmts s = some ⟨t.year, t.month, t.day, h, mi, se⟩ := by
  induction fmts with
  | nil => left; rfl
  | cons f rest ih =>
      cases hst : strpTime f.1 s with
      | none =>
          rcases ih with h | ⟨h, mi, se, hall⟩
          · left; simp [tryFormats, hst, h]
          · right; exact ⟨h, mi, se, fun t => by simp [tryFormats, hst, hall t]⟩
      | some v =>
          cases hb : f.2 with
          | false => left; simp [tryFormats, hst, hb]
          | true =>
              right
              exact ⟨v.hour, v.minute, v.second,
                fun t => by simp [tryFormats, hst, hb, combineToday]⟩

/-- C9 (amended): a row whose date text no layout (nor the library fallback)
parses is dropped from extraction, and whether it is dropped does not depend
on the clock; moreover row-level date parsing depends on the clock only
through the time-only layouts (`%H:%M:%S`, `%H:%M`): for every date text,
either the parse result is identical at any two clock dates, or the text is
time-only and the result's date is exactly the current clock day (a per-row
"today" default), while full-date layouts never consult the clock. -/
theorem parseDateString_clock_dependence (pdF : String → Option CalDateTime)
    (t₁ t₂ : CalDate) (s : String) (rows : List Row) (r : Row) :
    ((match r.dateText with
        | some s' => parseDateString pdF t₁ s' = none
        | none => True) →
      extractAllMeasurements pdF t₁ (r :: rows) =
        extractAllMeasurements pdF t₁ rows) ∧
    ((parseDateString pdF t₁ s).isSome = (parseDateString pdF t₂ s).isSome ∨
      pdF s ≠ none) ∧
    (parseDateString pdF t₁ s = parseDateString pdF t₂ s ∨
      ∃ h mi se : Nat, ∀ t : CalDate,
        tryFormats t timeFormats s = some ⟨t.year, t.month, t.day, h, mi, se⟩) := by
  refine ⟨?_, ?_, ?_⟩
  · intro hfail
    cases hb : (r.systolic.isSome && r.diastolic.isSome) with
    | false => simp [extractAllMeasurements, hb]
    | true =>
        cases hdt : r.dateText with
        | none => simp [extractAllMeasurements, hb, hdt]
        | some s' =>
            rw [hdt] at hfail
            simp [extractAllMeasurements, hb, hdt, hfail]
  · rcases tryFormats_clock timeFormats t₁ t₂ s with h | ⟨h, mi, se, hall⟩
    · left; simp [parseDateString, h]
    · left; simp [parseDateString, hall t₁, hall t₂]
  · rcases tryFormats_clock timeFormats t₁ t₂ s with h | ⟨h, mi, se, hall⟩
    · left; simp [parseDateString, h]
    · right; exact ⟨h, mi, se, hall⟩

/-- An empty row: no pressure values, no date text. -/
def emptyRow : Row := ⟨none, none, none, none⟩

/-- C9 witness: the clock-dependence theorem instantiated at the dateless row
(dropped) and the time-only text "21:07". -/
theorem parseDateString_clock_dependence_witness :
    extractAllMeasurements pdNone ⟨2025, 1, 1⟩ [emptyRow] =
        extractAllMeasurements pdNone ⟨2025, 1, 1⟩ [] ∧
      (parseDateString pdNone ⟨2025, 1, 1⟩ "21:07" =
          parseDateString pdNone ⟨2025, 1, 2⟩ "21:07" ∨
        ∃ h mi se : Nat, ∀ t : CalDate,
          tryFormats t timeFormats "21:07" =
            some ⟨t.year, t.month, t.day, h, mi, se⟩) :=
  ⟨(parseDateString_clock_dependence pdNone ⟨2025, 1, 1⟩ ⟨2025, 1, 2⟩ "21:07"
      [] emptyRow).1 trivial,
    (parseDateString_clock_dependence pdNone ⟨2025, 1, 1⟩ ⟨2025, 1, 2⟩ "21:07"
      [] emptyRow).2.2⟩

/-- C10: out-of-range pressure values are never dropped: the number of
extracted measurements equals the number of rows with both pressure values
present and a parseable timestamp — a condition that never inspects the
values' ranges — and every kept row with systolic 260 (above the 70-250
range) yields a measurement that is in the output, keeps its value and
carries a nonempty warning list. -/
theorem extract_retains_out_of_range (pdF : String → Option CalDateTime)
    (today : CalDate) (rows : List Row) :
    (extractAllMeasurements pdF today rows).length =
        rows.countP (rowKept pdF today) ∧
      ∀ r ∈ rows, rowKept pdF today r = true → r.systolic = some 260 →
        ∃ m ∈ extractAllMeasurements pdF today rows,
          m.data.systolic = some 260 ∧ m.warnings ≠ [] := by
  induction rows with
  | nil =>
      refine ⟨rfl, ?_⟩
      intro r hr
      simp at hr
  | cons r rest ih =>
      have hstep : ∀ q : Row,
          rowKept pdF today q = true →
          extractAllMeasurements pdF today (q :: rest) =
            { data := rowData q,
              measurement_time :=
                ((match q.dateText with
                  | some s => parseDateString pdF today s
                  | none => none).getD ⟨1900, 1, 1, 0, 0, 0⟩),
              time_slot := classifyTimeSlot
                ((match q.dateText with
                  | some s => parseDateString pdF today s
                  | none => none).getD ⟨1900, 1, 1, 0, 0, 0⟩).hour,
              warnings := validatePressureRanges (rowData q) } ::
              extractAllMeasurements pdF today rest := by
        intro q hq
        unfold rowKept at hq
        cases hb : (q.systolic.isSome && q.diastolic.isSome) with
        | false => rw [hb] at hq; simp at hq
        | true =>
            cases hdt : q.dateText with
            | none => rw [hb, hdt] at hq; simp at hq
            | some s =>
                rw [hb, hdt] at hq
                simp only [Bool.true_and] at hq
                cases hp : parseDateString pdF today s with
                | none => rw [hp] at hq; simp at hq
                | some mt => simp [extractAllMeasurements, hb, hdt, hp]
      have hskip : rowKept pdF today r = false →
          extractAllMeasurements pdF today (r :: rest) =
            extractAllMeasurements pdF today rest := by
        intro hq
        unfold rowKept at hq
        cases hb : (r.systolic.isSome && r.diastolic.isSome) with
        | false => simp [extractAllMeasurements, hb]
        | true =>
            cases hdt : r.dateText with
            | none => simp [extractAllMeasurements, hb, hdt]
            | some s =>
                rw [hb, hdt] at hq
                simp only [Bool.true_and] at hq
                cases hp : parseDateString pdF today s with
                | none => simp [extractAllMeasurements, hb, hdt, hp]
                | some mt => rw [hp] at hq; simp at hq
      constructor
      · cases hk : rowKept pdF today r with
        | true =>
            rw [hstep r hk]
            simp [List.countP_cons, hk, ih.1]
        | false =>
            rw [hskip hk]
            simp [List.countP_cons, hk, ih.1]
      · intro q hq hkept hsys
        rcases List.mem_cons.mp hq with rfl | hq'
        · rw [hstep q hkept]
          refine ⟨_, List.mem_cons_self _ _, ?_, ?_⟩
          · simp [rowData, hsys]
          · have h260 : ¬((70 : ℚ) ≤ 260 ∧ (260 : ℚ) ≤ 250) := by norm_num
            unfold validatePressureRanges
            rw [show (rowData q).systolic = some 260 from hsys]
            simp [h260]
        · obtain ⟨m, hm, hms, hmw⟩ := ih.2 q hq' hkept hsys
          refine ⟨m, ?_, hms, hmw⟩
          cases hk : rowKept pdF today r with
          | true => rw [hstep r hk]; exact List.mem_cons_of_mem _ hm
          | false => rw [hskip hk]; exact hm

/-- A row with systolic 260 (above range) and a parseable timestamp. -/
def row260 : Row := ⟨some 260, some 80, some 70, some "2025/01/02 08:00"⟩

/-- C10 witness: the retention theorem applied to the single row with
systolic 260: it is extracted, flagged and counted. -/
theorem extract_retains_out_of_range_witness :
    (extractAllMeasurements pdNone ⟨2025, 6, 1⟩ [row260]).length =
        [row260].countP (rowKept pdNone ⟨2025, 6, 1⟩) ∧
      ∃ m ∈ extractAllMeasurements pdNone ⟨2025, 6, 1⟩ [row260],
        m.data.systolic = some 260 ∧ m.warnings ≠ [] :=
  ⟨(extract_retains_out_of_range pdNone ⟨2025, 6, 1⟩ [row260]).1,
    (extract_retains_out_of_range pdNone ⟨2025, 6, 1⟩ [row260]).2 row260
      (List.mem_cons_self _ _) (by decide) rfl⟩
